import Mathlib

/-!
Verification development for the borrow-check core of this repository:
place model, conflict analyzer (`borrow_check/places_conflict.rs`),
move-path lookup (`dataflow/move_paths/mod.rs`), liveness search
(`nll/explain_borrow/find_use.rs`), opaque-type least-region search
(`infer/opaque_types/mod.rs`), the GLB lattice combiner (`infer/glb.rs`),
and query-constraint conversion (`nll/type_check/constraint_conversion.rs`).
-/

namespace BorrowCk

/-- Mutability of a reference, mirroring `hir::Mutability`. -/
inductive Mutability where
  | MutImmutable
  | MutMutable
deriving DecidableEq, Repr

/-- Minimal fragment of `ty::TyS.sty` that `places_conflict.rs` inspects:
reference types (for the deref arms), ADTs (union / destructor checks) and
arrays (zero-length promoted check).  Everything else is `Other`. -/
inductive Ty where
  | Ref (m : Mutability) (t : Ty)
  | Adt (isUnion : Bool) (hasDtor : Bool)
  | Array (t : Ty) (len : Option Nat)
  | Other (n : Nat)
deriving DecidableEq, Repr

/-- Mirror of `mir::StaticKind`: a `static` item identified by its `DefId`,
or a promoted constant identified by its promoted index. -/
inductive StaticKind where
  | Static (defId : Nat)
  | Promoted (p : Nat)
deriving DecidableEq, Repr

/-- Mirror of `mir::Static`: the kind together with the place's type
(`places_conflict.rs` reads `s1.ty` in the promoted arm). -/
structure Static where
  kind : StaticKind
  ty : Ty
deriving DecidableEq, Repr

/-- Mirror of `mir::PlaceBase`: root of an access path. -/
inductive PlaceBase where
  | Local (l : Nat)
  | Static (s : Static)
deriving DecidableEq, Repr

/-- Mirror of `mir::ProjectionElem`: one step of an access path.  `Field`
keeps the field's type as in MIR; `Index` abstracts the operand local. -/
inductive ProjectionElem where
  | Deref
  | Field (f : Nat) (ty : Ty)
  | Index (v : Nat)
  | ConstantIndex (offset : Nat) (min_length : Nat) (from_end : Bool)
  | Subslice (fromIdx : Nat) (toIdx : Nat)
  | Downcast (v : Nat)
deriving DecidableEq, Repr

/-- Mirror of `mir::Projection` as the conflict walk consumes it: the
element, together with the type of its base place
(`pi1.base.ty(body, tcx).ty` / `borrow_c.base.ty(body, tcx).ty`). -/
structure Projection where
  baseTy : Ty
  elem : ProjectionElem
deriving DecidableEq, Repr

/-- Place in the `iterate` presentation used by the conflict walk:
a root plus the ordered projection list (each step carrying its base type). -/
structure PlaceC where
  base : PlaceBase
  projs : List Projection
deriving DecidableEq, Repr

/-- The part of `TyCtxt` that `place_base_conflict` consults. -/
structure TyCtxt where
  is_mutable_static : Nat → Bool

/-- Mirror of `borrow_check::Overlap`. -/
inductive Overlap where
  | Arbitrary
  | EqualOrDisjoint
  | Disjoint
deriving DecidableEq, Repr

/-- Mirror of `PlaceConflictBias`. -/
inductive PlaceConflictBias where
  | Overlap
  | NoOverlap
deriving DecidableEq, Repr

/-- Mirror of `mir::BorrowKind` (only `== Shallow` is inspected here). -/
inductive BorrowKind where
  | Shared
  | Shallow
  | Unique
  | Mut (allowTwoPhaseBorrow : Bool)
deriving DecidableEq, Repr

/-- Mirror of `borrow_check::ArtificialField`. -/
inductive ArtificialField where
  | ArrayLength
  | ShallowBorrow
deriving DecidableEq, Repr

/-- Mirror of `borrow_check::AccessDepth`. -/
inductive AccessDepth where
  | Shallow (af : Option ArtificialField)
  | Deep
  | Drop
deriving DecidableEq, Repr

/-- Mirror of `place_base_conflict` (places_conflict.rs:301-363). -/
def place_base_conflict (tcx : TyCtxt) (elem1 elem2 : PlaceBase) : Overlap :=
  match elem1, elem2 with
  | .Local l1, .Local l2 =>
      if l1 = l2 then Overlap.EqualOrDisjoint else Overlap.Disjoint
  | .Static s1, .Static s2 =>
      match s1.kind, s2.kind with
      | .Static defId1, .Static defId2 =>
          if defId1 ≠ defId2 then Overlap.Disjoint
          else if tcx.is_mutable_static defId1 then Overlap.Disjoint
          else Overlap.EqualOrDisjoint
      | .Promoted p1, .Promoted p2 =>
          if p1 = p2 then
            match s1.ty with
            | .Array _ (some 0) => Overlap.Disjoint
            | _ => Overlap.EqualOrDisjoint
          else Overlap.Disjoint
      | _, _ => Overlap.Disjoint
  | .Local _, .Static _ => Overlap.Disjoint
  | .Static _, .Local _ => Overlap.Disjoint

/-- Mirror of `place_projection_conflict` (places_conflict.rs:368-532);
`none` models the `bug!` arm for mismatched projection constructors. -/
def place_projection_conflict (pi1 pi2 : Projection) (bias : PlaceConflictBias) :
    Option Overlap :=
  match pi1.elem, pi2.elem with
  | .Deref, .Deref => some Overlap.EqualOrDisjoint
  | .Field f1 _, .Field f2 _ =>
      if f1 = f2 then some Overlap.EqualOrDisjoint
      else
        match pi1.baseTy with
        | .Adt true _ => some Overlap.Arbitrary
        | _ => some Overlap.Disjoint
  | .Downcast v1, .Downcast v2 =>
      if v1 = v2 then some Overlap.EqualOrDisjoint else some Overlap.Disjoint
  | .Index _, .Index _
  | .Index _, .ConstantIndex _ _ _
  | .Index _, .Subslice _ _
  | .ConstantIndex _ _ _, .Index _
  | .Subslice _ _, .Index _ =>
      match bias with
      | .Overlap => some Overlap.EqualOrDisjoint
      | .NoOverlap => some Overlap.Disjoint
  | .ConstantIndex o1 _ false, .ConstantIndex o2 _ false
  | .ConstantIndex o1 _ true, .ConstantIndex o2 _ true =>
      if o1 = o2 then some Overlap.EqualOrDisjoint else some Overlap.Disjoint
  | .ConstantIndex offsetFromBegin ml1 false, .ConstantIndex offsetFromEnd ml2 true
  | .ConstantIndex offsetFromEnd ml1 true, .ConstantIndex offsetFromBegin ml2 false =>
      let min_length := max ml1 ml2
      if offsetFromBegin ≥ min_length - offsetFromEnd then some Overlap.EqualOrDisjoint
      else some Overlap.Disjoint
  | .ConstantIndex offset _ false, .Subslice fromIdx _
  | .Subslice fromIdx _, .ConstantIndex offset _ false =>
      if offset ≥ fromIdx then some Overlap.EqualOrDisjoint else some Overlap.Disjoint
  | .ConstantIndex offset _ true, .Subslice _ toIdx
  | .Subslice _ toIdx, .ConstantIndex offset _ true =>
      if offset > toIdx then some Overlap.EqualOrDisjoint else some Overlap.Disjoint
  | .Subslice _ _, .Subslice _ _ => some Overlap.EqualOrDisjoint
  | _, _ => none

/-- Outcome of one iteration of the "borrow path is longer" branch of
`place_components_conflict` (places_conflict.rs:206-272): return a value,
hit the `bug!` arm (tracking a borrow behind a shared reference), or
proceed to the next borrow element. -/
inductive LongerStep where
  | ret (b : Bool)
  | bug
  | recur
deriving DecidableEq, Repr

/-- Mirror of the `match (elem, &base_ty.sty, access)` in the
borrow-longer-than-access branch (places_conflict.rs:219-271). -/
def borrow_longer_step (borrowC : Projection) (access : AccessDepth) : LongerStep :=
  match borrowC.elem, borrowC.baseTy, access with
  | _, _, .Shallow (some .ArrayLength) => .ret false
  | _, _, .Shallow (some .ShallowBorrow) => .ret false
  | .Deref, _, .Shallow none => .ret false
  | .Deref, .Ref .MutImmutable _, _ => .bug
  | .Deref, .Ref .MutMutable _, .Drop => .ret false
  | .Field _ _, .Adt _ hasD, .Drop => if hasD then .ret true else .recur
  | _, _, _ => .recur

/-- Mirror of the lock-step `loop` of `place_components_conflict`
(places_conflict.rs:158-295), recursing over the two projection lists;
`none` models reaching a `bug!`. -/
def components_loop (kind : BorrowKind) (access : AccessDepth)
    (bias : PlaceConflictBias) :
    List Projection → List Projection → Option Bool
  | [], accessProjs =>
      if kind = BorrowKind.Shallow ∧ accessProjs ≠ [] then some false else some true
  | borrowC :: bs, accessC :: as' =>
      match place_projection_conflict borrowC accessC bias with
      | none => none
      | some .Arbitrary => some true
      | some .EqualOrDisjoint => components_loop kind access bias bs as'
      | some .Disjoint => some false
  | borrowC :: bs, [] =>
      match borrow_longer_step borrowC access with
      | .ret b => some b
      | .bug => none
      | .recur => components_loop kind access bias bs []

/-- Mirror of `place_components_conflict` (places_conflict.rs:86-296). -/
def place_components_conflict (tcx : TyCtxt) (borrowPlace : PlaceC)
    (kind : BorrowKind) (accessPlace : PlaceC) (access : AccessDepth)
    (bias : PlaceConflictBias) : Option Bool :=
  match place_base_conflict tcx borrowPlace.base accessPlace.base with
  | .Arbitrary => none
  | .EqualOrDisjoint => components_loop kind access bias borrowPlace.projs accessPlace.projs
  | .Disjoint => some false

/-- Mirror of `borrow_conflicts_with_place` (places_conflict.rs:49-84),
including the bare-local fast path. -/
def borrow_conflicts_with_place (tcx : TyCtxt) (borrowPlace : PlaceC)
    (kind : BorrowKind) (accessPlace : PlaceC) (access : AccessDepth)
    (bias : PlaceConflictBias) : Option Bool :=
  match borrowPlace, accessPlace with
  | ⟨.Local l1, []⟩, ⟨.Local l2, []⟩ => some (decide (l1 = l2))
  | _, _ =>
      place_components_conflict tcx borrowPlace kind accessPlace access bias

/-- Mirror of `places_conflict` (places_conflict.rs:27-43): mutable borrow,
deep access. -/
def places_conflict (tcx : TyCtxt) (borrowPlace accessPlace : PlaceC)
    (bias : PlaceConflictBias) : Option Bool :=
  borrow_conflicts_with_place tcx borrowPlace (BorrowKind.Mut true) accessPlace
    AccessDepth.Deep bias

end BorrowCk

namespace MovePaths

open BorrowCk (PlaceBase ProjectionElem Static StaticKind Ty)

/-- Place as the move-path code consumes it: root plus projection elements
(the per-step base types play no role in lookup). -/
structure Place where
  base : PlaceBase
  projs : List ProjectionElem
deriving DecidableEq, Repr

/-- Modelled from the spec: `abs_domain.rs` is not under `src/`; per
§4.1, distinct runtime index operands collapse to a single abstract
array-element path, while all other projection data is kept.  This is the
`AbstractElem` used as key in the `projections` map. -/
inductive AbstractElem where
  | Deref
  | Field (f : Nat)
  | IndexAbs
  | ConstantIndex (offset : Nat) (min_length : Nat) (from_end : Bool)
  | Subslice (fromIdx : Nat) (toIdx : Nat)
  | Downcast (v : Nat)
deriving DecidableEq, Repr

/-- Modelled from the spec: the `lift` of a projection element into the
abstract domain (`abs_domain.rs` not under `src/`). -/
def lift : ProjectionElem → AbstractElem
  | .Deref => .Deref
  | .Field f _ => .Field f
  | .Index _ => .IndexAbs
  | .ConstantIndex o ml fe => .ConstantIndex o ml fe
  | .Subslice f t => .Subslice f t
  | .Downcast v => .Downcast v

/-- Mirror of `MovePath` (move_paths/mod.rs:52-57): tree node with weak
index links, as required by §3/§9 (arena with `Option` indices). -/
structure MovePath where
  next_sibling : Option Nat
  first_child : Option Nat
  parent : Option Nat
  place : Place
deriving Repr

/-- Mirror of `MovePathLookup` (move_paths/mod.rs:218-228): a per-local
table plus a map from `(parent index, abstracted projection)` to child
index, here an association list with most-recent-first lookup. -/
structure MovePathLookup where
  locals : Nat → Nat
  projections : List ((Nat × AbstractElem) × Nat)

/-- Lookup in the `projections` map. -/
def lookupProj (m : MovePathLookup) (k : Nat × AbstractElem) : Option Nat :=
  match m.projections.find? (fun e => decide (e.1 = k)) with
  | some e => some e.2
  | none => none

/-- Mirror of `LookupResult` (move_paths/mod.rs:233-236). -/
inductive LookupResult where
  | Exact (i : Nat)
  | Parent (o : Option Nat)
deriving DecidableEq, Repr

/-- The projection walk inside `MovePathLookup::find`
(move_paths/mod.rs:250-258). -/
def findFrom (m : MovePathLookup) : Nat → List ProjectionElem → LookupResult
  | result, [] => .Exact result
  | result, proj :: rest =>
      match lookupProj m (result, lift proj) with
      | some subpath => findFrom m subpath rest
      | none => .Parent (some result)

/-- Mirror of `MovePathLookup::find` (move_paths/mod.rs:243-260). -/
def find (m : MovePathLookup) (place : Place) : LookupResult :=
  match place.base with
  | .Local l => findFrom m (m.locals l) place.projs
  | .Static _ => .Parent none

/-- State of the move-path builder: the arena of `MovePath` nodes plus the
reverse lookup tables. -/
structure MoveDataBuilder where
  move_paths : List MovePath
  rev_lookup : MovePathLookup

/-- Modelled from the spec: node creation in the builder
(`move_paths/builder.rs` is not under `src/`).  Per §3/§9 a fresh arena
slot is appended, linked under `parent` at the head of its sibling list,
and the `(parent, lifted elem)` entry is recorded in the lookup map. -/
def new_move_path (b : MoveDataBuilder) (parent : Nat) (elem : ProjectionElem)
    (place : Place) : MoveDataBuilder × Nat :=
  let idx := b.move_paths.length
  let node : MovePath :=
    { next_sibling := (b.move_paths.get? parent).bind (·.first_child)
      first_child := none
      parent := some parent
      place := place }
  let arena' := (b.move_paths ++ [node]).mapIdx
    (fun i mp => if i = parent then { mp with first_child := some idx } else mp)
  (⟨arena',
    { locals := b.rev_lookup.locals
      projections := ((parent, lift elem), idx) :: b.rev_lookup.projections }⟩,
   idx)

/-- Modelled from the spec: the projection walk of the builder's
`move_path_for` (§4.1; `move_paths/builder.rs` not under `src/`): walk the
place's projections from the local's root, reusing an existing child when
the `(parent, abstracted elem)` entry exists and creating a fresh node
otherwise, with deterministic dedup (an access path maps to at most one
move-path index). -/
def move_path_for_projs (b : MoveDataBuilder) (cur : Nat) (base : PlaceBase)
    (sofar : List ProjectionElem) :
    List ProjectionElem → MoveDataBuilder × Nat
  | [] => (b, cur)
  | elem :: rest =>
      match lookupProj b.rev_lookup (cur, lift elem) with
      | some child => move_path_for_projs b child base (sofar ++ [elem]) rest
      | none =>
          let r := new_move_path b cur elem ⟨base, sofar ++ [elem]⟩
          move_path_for_projs r.1 r.2 base (sofar ++ [elem]) rest

/-- Modelled from the spec: registration of a local-rooted place in the
tracker (§4.1); static-rooted places are not registered (they raise
`IllegalMove::Static` in the builder). -/
def move_path_for (b : MoveDataBuilder) (place : Place) :
    Option (MoveDataBuilder × Nat) :=
  match place.base with
  | .Local l =>
      some (move_path_for_projs b (b.rev_lookup.locals l) place.base [] place.projs)
  | .Static _ => none

end MovePaths

namespace FindUse

/-- Mirror of `mir::Location`. -/
structure Location where
  block : Nat
  statement_index : Nat
deriving DecidableEq, Repr

/-- Mirror of `util::liveness::DefUse` (the categorization the visitor
receives from `liveness::categorize`). -/
inductive DefUse where
  | Def
  | Use
  | Drop
deriving DecidableEq, Repr

/-- Mirror of `DefUseResult` (find_use.rs:109-113). -/
inductive DefUseResult where
  | Def
  | UseLive (l : Nat)
  | UseDrop (l : Nat)
deriving DecidableEq, Repr

/-- Mirror of `region_infer::Cause` as built by the search. -/
inductive Cause where
  | LiveVar (l : Nat) (loc : Location)
  | DropVar (l : Nat) (loc : Location)
deriving DecidableEq, Repr

/-- Data of one basic block as the search consumes it: the statement
count, the terminator's successor blocks, and its unwind edge
(`Option (Option block)`, as `Terminator::unwind` returns). -/
structure BlockData where
  statements : Nat
  successors : List Nat
  unwind : Option (Option Nat)
deriving Repr

/-- The function body as the search consumes it.  `occurrences p` lists,
in visit order, the locals mentioned at point `p` together with the
`liveness::categorize` result for each occurrence context
(`liveness::categorize` lives outside `src/`); `local_ty_mentions l`
states whether the searched `region_vid` occurs among the free regions of
`local_decls[l].ty` (the `for_each_free_region` test of `visit_local`). -/
structure Body where
  blocks : List BlockData
  occurrences : Location → List (Nat × Option DefUse)
  local_ty_mentions : Nat → Bool

/-- The part of `RegionInferenceContext` the search queries. -/
structure RegionCtxt where
  region_contains : Location → Bool

/-- Mirror of `UseFinder::def_use` plus `DefUseVisitor::visit_local`
(find_use.rs:88-135): visit every local occurrence at the point; when the
local's type mentions the region, overwrite the pending result with the
categorization (including overwriting with `None`). -/
def def_use (body : Body) (p : Location) : Option DefUseResult :=
  (body.occurrences p).foldl
    (fun acc oc =>
      if body.local_ty_mentions oc.1 then
        match oc.2 with
        | some .Def => some DefUseResult.Def
        | some .Use => some (DefUseResult.UseLive oc.1)
        | some .Drop => some (DefUseResult.UseDrop oc.1)
        | none => none
      else acc)
    none

/-- Successor locations enqueued at a terminator (find_use.rs:70-79): all
successor blocks whose `Some(Some(bb))` is not the unwind edge, entering
at statement 0. -/
def termSuccessors (bd : BlockData) : List Location :=
  (bd.successors.filter (fun bb => decide (some (some bb) ≠ bd.unwind))).map
    (fun bb => ⟨bb, 0⟩)

/-- Mirror of the breadth-first loop of `UseFinder::find`
(find_use.rs:39-86), with an explicit fuel bound standing for the
termination argument (the visited set is drawn from the finite point set
of the body).  Queue is FIFO: pop at the head, push at the tail. -/
def findAux (body : Body) (rc : RegionCtxt) :
    Nat → List Location → List Location → Option Cause
  | 0, _, _ => none
  | _ + 1, [], _ => none
  | fuel + 1, p :: queue, visited =>
      if ¬ rc.region_contains p then findAux body rc fuel queue visited
      else if p ∈ visited then findAux body rc fuel queue visited
      else
        match def_use body p with
        | some .Def => findAux body rc fuel queue (p :: visited)
        | some (.UseLive l) => some (Cause.LiveVar l p)
        | some (.UseDrop l) => some (Cause.DropVar l p)
        | none =>
            let bd := body.blocks.getD p.block ⟨0, [], none⟩
            if p.statement_index < bd.statements then
              findAux body rc fuel
                (queue ++ [⟨p.block, p.statement_index + 1⟩]) (p :: visited)
            else
              findAux body rc fuel (queue ++ termSuccessors bd) (p :: visited)

/-- Mirror of `find` (find_use.rs:12-28), with fuel supplied generously. -/
def find (body : Body) (rc : RegionCtxt) (startPoint : Location) : Option Cause :=
  findAux body rc
    (((body.blocks.map (fun b => b.statements + 2)).sum + 2) *
      ((body.blocks.map (fun b => b.successors.length + 2)).sum + 2))
    [startPoint] []

end FindUse

namespace OpaqueTypes

/-- Regions as the least-region search distinguishes them: the degenerate
empty region, the static region, and named/free region variables. -/
inductive Region where
  | ReEmpty
  | ReStatic
  | ReVar (n : Nat)
deriving DecidableEq, Repr

/-- The externally-given free-region relation (§4.3): does the first
region relate as a sub-region of the second. -/
structure FreeRegionRelations where
  sub_free_regions : Region → Region → Bool

/-- Mirror of `hir::ExistTyOrigin`. -/
inductive ExistTyOrigin where
  | ExistentialType
  | ReturnImplTrait
  | AsyncFn
deriving DecidableEq, Repr

/-- The data of an opaque-type instantiation the least-region search
consumes: the region arguments supplied for each lifetime parameter (in
parameter order, `substs.region_at(param.index)`), whether required region
bounds exist, and the origin (used only in diagnostic wording). -/
structure OpaqueTypeDecl where
  regionArgs : List Region
  has_required_region_bounds : Bool
  origin : ExistTyOrigin

/-- The facts of an ambiguous-lifetime-bound diagnostic: the two candidate
regions that failed to relate ("neither `r1` nor `r2` outlives the
other"). -/
structure Diagnostic where
  r1 : Region
  r2 : Region
deriving DecidableEq, Repr

/-- Mirror of the `least_region` loop of `constrain_opaque_type`
(opaque_types/mod.rs:331-394): fold the candidate regions, keeping the
smaller under the free-region relation; on two non-comparable candidates,
emit one diagnostic naming them, substitute `ReEmpty`, and `break`. -/
def least_region_loop (frr : FreeRegionRelations) :
    Option Region → List Region → Option Region × List Diagnostic
  | leastRegion, [] => (leastRegion, [])
  | none, substArg :: rest => least_region_loop frr (some substArg) rest
  | some lr, substArg :: rest =>
      if frr.sub_free_regions lr substArg then
        least_region_loop frr (some lr) rest
      else if frr.sub_free_regions substArg lr then
        least_region_loop frr (some substArg) rest
      else
        (some Region.ReEmpty, [⟨lr, substArg⟩])

/-- Outcome of `constrain_opaque_type`: either the early
required-region-bounds path was taken, or the least-region search ran and
the concrete type was constrained to outlive `least` (after emitting
`diags`).  Totality of this function models "the pass completes normally
rather than aborting". -/
inductive ConstrainOutcome where
  | requiredBoundsPath
  | searchPath (least : Region) (diags : List Diagnostic)
deriving DecidableEq, Repr

/-- Mirror of `InferCtxt::constrain_opaque_type`
(opaque_types/mod.rs:276-404) restricted to its region-search skeleton:
with no required region bounds, run the least-region loop over the
supplied region arguments and constrain with the result
(`least_region.unwrap_or(re_static)`). -/
def constrain_opaque_type (frr : FreeRegionRelations) (d : OpaqueTypeDecl) :
    ConstrainOutcome :=
  if d.has_required_region_bounds then .requiredBoundsPath
  else
    let r := least_region_loop frr none d.regionArgs
    .searchPath (r.1.getD Region.ReStatic) r.2

end OpaqueTypes

namespace GlbLub

/-- Mirror of `ty::Variance`. -/
inductive Variance where
  | Covariant
  | Invariant
  | Contravariant
  | Bivariant
deriving DecidableEq, Repr

/-- Which combiner is running: `Glb`, its dual `Lub`, or `Equate` (the
invariant fallback). -/
inductive CombinerKind where
  | Glb
  | Lub
  | Equate
deriving DecidableEq, Repr

/-- The dual combiner: contravariant positions swap Glb and Lub. -/
def CombinerKind.dual : CombinerKind → CombinerKind
  | .Glb => .Lub
  | .Lub => .Glb
  | .Equate => .Equate

/-- Region expressions: variables plus the formal glb/lub operations the
combiner requests from the external region-constraint store
(`glb_regions` / `lub_regions`). -/
inductive RegionExpr where
  | rvar (n : Nat)
  | rglb (a b : RegionExpr)
  | rlub (a b : RegionExpr)
deriving DecidableEq, Repr

/-- Modelled from the spec: the variance-aware structural decomposition
(`ty::relate` is not under `src/`).  A small region-carrying type language
with covariant pair positions, a contravariant function-argument position,
an explicitly invariant position, and a higher-ranked binder. -/
inductive MTy where
  | reg (r : RegionExpr)
  | pair (a b : MTy)
  | func (arg res : MTy)
  | inva (a : MTy)
  | binder (a : MTy)
deriving DecidableEq, Repr

/-- The region combination each combiner requests: Glb delegates to the
store's glb operation, Lub to its lub operation. -/
def regionOp : CombinerKind → RegionExpr → RegionExpr → RegionExpr
  | .Glb, a, b => .rglb a b
  | .Lub, a, b => .rlub a b
  | .Equate, a, _ => a

/-- The combiner: `Equate` relates two sides by making them equal (in a
language without inference variables: succeeding exactly on equal types);
`Glb`/`Lub` decompose structurally, dispatching sub-positions per
`Glb::relate_with_variance` (glb.rs:31-44) and handling binders per
`Glb::binders` (glb.rs:74-85): relate the two binders with invariant
variance and return the left side.  `none` models a combine failure. -/
def combine : CombinerKind → MTy → MTy → Option MTy
  | .Equate, a, b => if a = b then some a else none
  | k, .reg r, .reg s => some (.reg (regionOp k r s))
  | k, .pair a1 a2, .pair b1 b2 =>
      (combine k a1 b1).bind fun x =>
        (combine k a2 b2).map fun y => .pair x y
  | k, .func a1 a2, .func b1 b2 =>
      (combine k.dual a1 b1).bind fun x =>
        (combine k a2 b2).map fun y => .func x y
  | _, .inva a1, .inva b1 =>
      (combine .Equate a1 b1).map fun x => .inva x
  | _, .binder a1, .binder b1 =>
      if (MTy.binder a1 : MTy) = MTy.binder b1 then some (MTy.binder a1) else none
  | _, _, _ => none

/-- Mirror of `Glb::relate_with_variance` (glb.rs:31-44): invariant
positions equate, covariant positions recurse into Glb itself, bivariant
positions return the left side unrelated, contravariant positions switch
to the dual Lub combiner. -/
def glb_relate_with_variance (v : Variance) (a b : MTy) : Option MTy :=
  match v with
  | .Invariant => combine .Equate a b
  | .Covariant => combine .Glb a b
  | .Bivariant => some a
  | .Contravariant => combine .Lub a b

/-- Mirror of `Glb::binders` (glb.rs:74-85): relate the binders with
invariant variance, then return the left binder. -/
def glb_binders (a b : MTy) : Option MTy :=
  (glb_relate_with_variance .Invariant (.binder a) (.binder b)).map
    fun _ => .binder a

end GlbLub

namespace ConstraintConv

/-- Regions as the converter sees them (opaque identities mapped through
`to_region_vid`). -/
abbrev Region := Nat

/-- Mirror of `ty::subst::UnpackedKind`: the left-hand side of an
outlives predicate is a lifetime, a type, or a constant. -/
inductive K1 where
  | Lifetime (r : Region)
  | TypeK (t : Nat)
  | ConstK (c : Nat)
deriving DecidableEq, Repr

/-- Mirror of `QueryRegionConstraint` (a binder around
`OutlivesPredicate(k1, r2)`): `hasBoundVars` records whether
`no_bound_vars()` fails. -/
structure QueryRegionConstraint where
  hasBoundVars : Bool
  k1 : K1
  r2 : Region
deriving DecidableEq, Repr

/-- Mirror of `OutlivesConstraint` (§3): `sup` must outlive `sub`, tagged
with locations and category. -/
structure OutlivesConstraint where
  sup : Nat
  sub : Nat
  locations : Nat
  category : Nat
deriving DecidableEq, Repr

/-- Mirror of `TypeTest` (§3). -/
structure TypeTest where
  generic_kind : Nat
  lower_bound : Nat
  locations : Nat
  verify_bound : Nat
deriving DecidableEq, Repr

/-- The part of `MirTypeckRegionConstraints` the converter appends to. -/
structure ConstraintsState where
  outlives_constraints : List OutlivesConstraint
  type_tests : List TypeTest
deriving DecidableEq, Repr

/-- One callback from the `TypeOutlives` generic-bound verification into
the converter's delegate (constraint_conversion.rs:153-177): either a
sub-region constraint or a verify obligation. -/
inductive DelegateCall where
  | SubRegion (a b : Region)
  | Verify (kind : Nat) (a : Region) (bound : Nat)
deriving DecidableEq, Repr

/-- The converter's environment: the `to_region_vid` mapping (universal
regions / placeholders, `universal_regions.rs` is outside `src/`; modelled
as a given total mapping), the `TypeOutlives` strategy (modelled from the
spec as the list of delegate callbacks it performs for a
type-outlives-region obligation), and the current locations/category. -/
structure ConvEnv where
  to_region_vid : Region → Nat
  typeOutlivesCalls : Nat → Region → List DelegateCall
  locations : Nat
  category : Nat

/-- Mirror of `ConstraintConversion::add_outlives`
(constraint_conversion.rs:136-145). -/
def add_outlives (env : ConvEnv) (st : ConstraintsState) (sup sub : Nat) :
    ConstraintsState :=
  { st with outlives_constraints :=
      st.outlives_constraints ++ [⟨sup, sub, env.locations, env.category⟩] }

/-- Mirror of `add_type_test` (constraint_conversion.rs:147-150) composed
with `verify_to_type_test` (constraint_conversion.rs:110-124). -/
def add_type_test (env : ConvEnv) (st : ConstraintsState)
    (kind : Nat) (region : Region) (bound : Nat) : ConstraintsState :=
  { st with type_tests :=
      st.type_tests ++ [⟨kind, env.to_region_vid region, env.locations, bound⟩] }

/-- One delegate callback applied to the state:
`push_sub_region_constraint` adds the outlives edge `b: a`
(constraint_conversion.rs:156-165); `push_verify` adds a type test. -/
def apply_delegate_call (env : ConvEnv) (st : ConstraintsState) :
    DelegateCall → ConstraintsState
  | .SubRegion a b => add_outlives env st (env.to_region_vid b) (env.to_region_vid a)
  | .Verify kind a bound => add_type_test env st kind a bound

/-- Mirror of `ConstraintConversion::convert`
(constraint_conversion.rs:58-108): `none` models the `bug!` on a
constraint still containing bound variables; a lifetime lhs adds one
outlives edge, a type lhs runs the `TypeOutlives` delegate calls, a const
lhs adds nothing. -/
def convert (env : ConvEnv) (st : ConstraintsState)
    (qc : QueryRegionConstraint) : Option ConstraintsState :=
  if qc.hasBoundVars then none
  else
    match qc.k1 with
    | .Lifetime r1 =>
        some (add_outlives env st (env.to_region_vid r1) (env.to_region_vid qc.r2))
    | .TypeK t1 =>
        some ((env.typeOutlivesCalls t1 qc.r2).foldl (apply_delegate_call env) st)
    | .ConstK _ => some st

/-- Mirror of `convert_all` (constraint_conversion.rs:52-56). -/
def convert_all (env : ConvEnv) (st : ConstraintsState) :
    List QueryRegionConstraint → Option ConstraintsState
  | [] => some st
  | qc :: rest =>
      match convert env st qc with
      | some st' => convert_all env st' rest
      | none => none

end ConstraintConv

namespace BorrowCk

/-- Well-formedness of a pair of place bases: two bases naming the same
promoted constant carry the same type (in MIR a promoted's type is
determined by its index; the embedding states it as a hypothesis). -/
def basesWf (b1 b2 : PlaceBase) : Bool :=
  match b1, b2 with
  | .Static s1, .Static s2 =>
      match s1.kind, s2.kind with
      | .Promoted p1, .Promoted p2 => decide (p1 = p2 → s1.ty = s2.ty)
      | _, _ => true
  | _, _ => true

/-- Whether a projection step is a dereference of a shared reference.
The conflict walk `bug!`s on such steps ("Tracking borrow behind shared
reference"), so tracked borrows never contain them. -/
def isSharedRefDeref (p : Projection) : Bool :=
  match p.elem, p.baseTy with
  | .Deref, .Ref .MutImmutable _ => true
  | _, _ => false

/-- The root-pair situations the claim lists as "cannot overlap":
different locals, different static items, local against static, or the
same mutable static. -/
def rootsCannotOverlap (tcx : TyCtxt) (b1 b2 : PlaceBase) : Prop :=
  (∃ l1 l2, b1 = .Local l1 ∧ b2 = .Local l2 ∧ l1 ≠ l2) ∨
  (∃ s1 s2 d1 d2, b1 = .Static s1 ∧ b2 = .Static s2 ∧
    s1.kind = .Static d1 ∧ s2.kind = .Static d2 ∧ d1 ≠ d2) ∨
  (∃ l s, (b1 = .Local l ∧ b2 = .Static s) ∨ (b1 = .Static s ∧ b2 = .Local l)) ∨
  (∃ s1 s2 d, b1 = .Static s1 ∧ b2 = .Static s2 ∧
    s1.kind = .Static d ∧ s2.kind = .Static d ∧ tcx.is_mutable_static d = true)

/-- The root pairs the code actually lets conflict: the same local, the
same non-mutable static item, or the same promoted constant. -/
def rootsMayConflict (tcx : TyCtxt) (b1 b2 : PlaceBase) : Prop :=
  (∃ l, b1 = .Local l ∧ b2 = .Local l) ∨
  (∃ s1 s2 d, b1 = .Static s1 ∧ b2 = .Static s2 ∧
    s1.kind = .Static d ∧ s2.kind = .Static d ∧ tcx.is_mutable_static d = false) ∨
  (∃ s1 s2 p, b1 = .Static s1 ∧ b2 = .Static s2 ∧
    s1.kind = .Promoted p ∧ s2.kind = .Promoted p)

/-- A type context in which no static is mutable, for the concrete
instances below. -/
def tcx0 : TyCtxt := ⟨fun _ => false⟩

/-- A place rooted at promoted constant 0, with no projections. -/
def promotedPlace : PlaceC := ⟨.Static ⟨.Promoted 0, Ty.Other 0⟩, []⟩

/-- Concrete struct-field places for the witnesses: fields 0 and 1 of the
same struct local. -/
def structField0 : PlaceC := ⟨.Local 0, [⟨Ty.Adt false false, .Field 0 (Ty.Other 0)⟩]⟩

/-- Second struct-field place (field 1 of the same local). -/
def structField1 : PlaceC := ⟨.Local 0, [⟨Ty.Adt false false, .Field 1 (Ty.Other 0)⟩]⟩

end BorrowCk

namespace FindUse

/-- Concrete straight-line body: one block with one statement; the
statement at (0,0) is a definition of local 0, the terminator point (0,1)
is a use of local 0, and local 0's type mentions the searched region. -/
def cbody : Body :=
  { blocks := [⟨1, [], none⟩]
    occurrences := fun p =>
      match p.block, p.statement_index with
      | 0, 0 => [(0, some DefUse.Def)]
      | 0, 1 => [(0, some DefUse.Use)]
      | _, _ => []
    local_ty_mentions := fun l => l = 0 }

/-- Region solution in which the region is live at every point. -/
def crc : RegionCtxt := ⟨fun _ => true⟩

end FindUse

namespace MovePaths

/-- Concrete builder state holding just the root path of local 0. -/
def b0 : MoveDataBuilder :=
  { move_paths := [⟨none, none, none, ⟨.Local 0, []⟩⟩]
    rev_lookup := { locals := fun _ => 0, projections := [] } }

/-- Concrete place `(local 0).2.deref` to register. -/
def p1 : Place := ⟨.Local 0, [.Field 2 (BorrowCk.Ty.Other 0), .Deref]⟩

/-- The registration of `p1` in `b0` (the `getD` default is never taken:
`p1` is local-rooted). -/
def reg1 : MoveDataBuilder × Nat := (move_path_for b0 p1).getD (b0, 0)

end MovePaths

namespace ConstraintConv

/-- Concrete conversion environment for the witness: identity region
mapping, a `TypeOutlives` strategy performing one sub-region and one
verify callback. -/
def cenv : ConvEnv :=
  { to_region_vid := fun r => r
    typeOutlivesCalls := fun _ r => [.SubRegion 7 r, .Verify 3 r 9]
    locations := 0
    category := 0 }

end ConstraintConv

/-- C10: for every place whose base is a static item rather than a local,
`MovePathLookup::find` returns `Parent(None)` — never `Exact` and never
`Parent(Some _)` — regardless of the registered paths; only local-rooted
places can resolve to a move path. -/
theorem MovePaths.c10_static_parent_none (m : MovePathLookup) (s : BorrowCk.Static)
    (projs : List BorrowCk.ProjectionElem) :
    find m ⟨.Static s, projs⟩ = .Parent none := rfl

namespace BorrowCk

/-- C3 counterexample: the claim says a ConstantIndex against a Subslice is
`Disjoint` iff the constant offset is provably outside the subslice bounds
`[from, to]`, including `offset > to` for a from-start index.  At
`offset = 5`, `from = 0`, `to = 2` the offset is outside the bounds, yet
the code returns `EqualOrDisjoint` (it never consults `to` for a
from-start constant index). -/
theorem c3_counterexample :
    ¬ ((place_projection_conflict ⟨Ty.Other 0, .ConstantIndex 5 6 false⟩
          ⟨Ty.Other 0, .Subslice 0 2⟩ PlaceConflictBias.Overlap
        = some Overlap.Disjoint) ↔ (5 < 0 ∨ 2 < 5)) := by decide

/-- C3 (amended): a from-start ConstantIndex against a Subslice is
`Disjoint` iff the constant offset is below `from` (the upper bound `to`
is not consulted); a from-end ConstantIndex against a Subslice is
`Disjoint` iff the offset is at most `to`; otherwise the step is
`EqualOrDisjoint`.  Both argument orders behave identically, for every
bias. -/
theorem c3_constant_index_subslice (bty1 bty2 : Ty) (offset ml fromIdx toIdx : Nat)
    (bias : PlaceConflictBias) :
    (place_projection_conflict ⟨bty1, .ConstantIndex offset ml false⟩
        ⟨bty2, .Subslice fromIdx toIdx⟩ bias
      = some (if offset ≥ fromIdx then Overlap.EqualOrDisjoint else Overlap.Disjoint))
    ∧ (place_projection_conflict ⟨bty1, .Subslice fromIdx toIdx⟩
        ⟨bty2, .ConstantIndex offset ml false⟩ bias
      = some (if offset ≥ fromIdx then Overlap.EqualOrDisjoint else Overlap.Disjoint))
    ∧ (place_projection_conflict ⟨bty1, .ConstantIndex offset ml true⟩
        ⟨bty2, .Subslice fromIdx toIdx⟩ bias
      = some (if offset > toIdx then Overlap.EqualOrDisjoint else Overlap.Disjoint))
    ∧ (place_projection_conflict ⟨bty1, .Subslice fromIdx toIdx⟩
        ⟨bty2, .ConstantIndex offset ml true⟩ bias
      = some (if offset > toIdx then Overlap.EqualOrDisjoint else Overlap.Disjoint)) := by
  refine ⟨?_, ?_, ?_, ?_⟩ <;>
    · simp only [place_projection_conflict]
      split <;> simp [*]

end BorrowCk

namespace OpaqueTypes

/-- C7: when the candidate regions supplied to an opaque-type
instantiation start with two regions that are mutually non-comparable
under the free-region relation, the engine emits exactly one
ambiguous-lifetime-bound diagnostic naming the two candidates,
substitutes the degenerate empty region as the least region, and the pass
completes normally (the search returns a `searchPath` outcome; no abort
path exists). -/
theorem c7_ambiguous_bound (frr : FreeRegionRelations) (a b : Region)
    (rest : List Region) (origin : ExistTyOrigin)
    (hab : frr.sub_free_regions a b = false)
    (hba : frr.sub_free_regions b a = false) :
    constrain_opaque_type frr ⟨a :: b :: rest, false, origin⟩
      = ConstrainOutcome.searchPath Region.ReEmpty [⟨a, b⟩] := by
  simp [constrain_opaque_type, least_region_loop, hab, hba]

/-- Witness for C7: two concrete unrelated free regions. -/
theorem c7_witness :
    constrain_opaque_type ⟨fun _ _ => false⟩
      ⟨[Region.ReVar 0, Region.ReVar 1], false, ExistTyOrigin.ReturnImplTrait⟩
      = ConstrainOutcome.searchPath Region.ReEmpty
          [⟨Region.ReVar 0, Region.ReVar 1⟩] :=
  c7_ambiguous_bound ⟨fun _ _ => false⟩ (Region.ReVar 0) (Region.ReVar 1) []
    ExistTyOrigin.ReturnImplTrait rfl rfl

end OpaqueTypes

namespace GlbLub

/-- C8: the GLB combiner dispatches on variance as the claim states:
covariant positions recurse into GLB itself, invariant positions equate
the two sides (succeeding exactly on equal sides in this
inference-variable-free model), contravariant positions switch to the
dual LUB combiner (witnessed by the function-argument position receiving
the region lub), and binder positions are related with invariant variance
— both sides equated, the left returned — rather than a precise bound
being computed. -/
theorem c8_glb_variance_dispatch :
    (∀ a b : MTy, glb_relate_with_variance .Covariant a b = combine .Glb a b)
    ∧ (∀ a b : MTy, glb_relate_with_variance .Invariant a b = combine .Equate a b)
    ∧ (∀ a b : MTy, combine .Equate a b = if a = b then some a else none)
    ∧ (∀ a b : MTy, glb_relate_with_variance .Contravariant a b = combine .Lub a b)
    ∧ (∀ (r s : RegionExpr) (t u : MTy),
        combine .Glb (.pair (.reg r) t) (.pair (.reg s) u)
          = (combine .Glb t u).map fun y => .pair (.reg (.rglb r s)) y)
    ∧ (∀ (r s : RegionExpr) (t u : MTy),
        combine .Glb (.func (.reg r) t) (.func (.reg s) u)
          = (combine .Glb t u).map fun y => .func (.reg (.rlub r s)) y)
    ∧ (∀ a b : MTy, combine .Glb (.binder a) (.binder b) = glb_binders a b)
    ∧ (∀ a b : MTy, glb_binders a b = if a = b then some (.binder a) else none) := by
  refine ⟨fun a b => rfl, fun a b => rfl, fun a b => by cases a <;> cases b <;> rfl,
    fun a b => rfl, fun r s t u => rfl, fun r s t u => rfl, fun a b => ?_, fun a b => ?_⟩
  · by_cases h : a = b <;>
      simp [glb_binders, glb_relate_with_variance, combine, h]
  · by_cases h : a = b <;>
      simp [glb_binders, glb_relate_with_variance, combine, h]

end GlbLub

namespace ConstraintConv

/-- C9: for a batch of query constraints each free of bound variables,
`convert_all` never reaches its abort branch; per constraint, a
lifetime-outlives-lifetime constraint appends exactly one outlives edge
with `sup`/`sub` mapped through `to_region_vid`, a
type-outlives-lifetime constraint runs the generic-bound verification
whose every delegate callback appends either one outlives edge or one
type test, and a constant-to-constant relation appends nothing; a
constraint that does contain bound variables aborts unconditionally. -/
theorem c9_convert_all (env : ConvEnv) :
    (∀ (st : ConstraintsState) (qcs : List QueryRegionConstraint),
        (∀ qc ∈ qcs, qc.hasBoundVars = false) →
        (convert_all env st qcs).isSome = true)
    ∧ (∀ st r1 r2, convert env st ⟨false, .Lifetime r1, r2⟩
        = some { st with outlives_constraints := st.outlives_constraints ++
            [⟨env.to_region_vid r1, env.to_region_vid r2,
              env.locations, env.category⟩] })
    ∧ (∀ st t1 r2, convert env st ⟨false, .TypeK t1, r2⟩
        = some ((env.typeOutlivesCalls t1 r2).foldl (apply_delegate_call env) st))
    ∧ (∀ st call, (∃ e, apply_delegate_call env st call
          = { st with outlives_constraints := st.outlives_constraints ++ [e] })
        ∨ (∃ t, apply_delegate_call env st call
          = { st with type_tests := st.type_tests ++ [t] }))
    ∧ (∀ st c r2, convert env st ⟨false, .ConstK c, r2⟩ = some st)
    ∧ (∀ st (qc : QueryRegionConstraint), qc.hasBoundVars = true →
        convert env st qc = none) := by
  refine ⟨?_, fun st r1 r2 => rfl, fun st t1 r2 => rfl, ?_, fun st c r2 => rfl, ?_⟩
  · intro st qcs
    induction qcs generalizing st with
    | nil => intro _; rfl
    | cons qc rest ih =>
        intro h
        have h0 : qc.hasBoundVars = false := h qc (List.mem_cons_self _ _)
        have hrest : ∀ q ∈ rest, q.hasBoundVars = false :=
          fun q hq => h q (List.mem_cons_of_mem _ hq)
        cases hk : qc.k1 <;>
          · obtain ⟨hbv, k1, r2⟩ := qc
            simp only at hk h0
            subst hk h0
            simpa [convert_all, convert] using ih _ hrest
  · intro st call
    cases call with
    | SubRegion a b => exact Or.inl ⟨_, rfl⟩
    | Verify kind a bound => exact Or.inr ⟨_, rfl⟩
  · intro st qc h
    simp [convert, h]

/-- Witness for C9: a concrete bound-variable-free batch with one
constraint of each kind converts without aborting. -/
theorem c9_witness :
    (convert_all cenv ⟨[], []⟩
        [⟨false, .Lifetime 1, 2⟩, ⟨false, .TypeK 0, 3⟩,
         ⟨false, .ConstK 0, 4⟩]).isSome = true :=
  (c9_convert_all cenv).1 ⟨[], []⟩ _ (by decide)

end ConstraintConv

namespace BorrowCk

/-- The bare-local fast path of `borrow_conflicts_with_place` agrees with
the general `place_components_conflict` walk, so the two are equal on all
inputs. -/
theorem borrow_conflicts_eq (tcx : TyCtxt) (bp : PlaceC) (kind : BorrowKind)
    (ap : PlaceC) (access : AccessDepth) (bias : PlaceConflictBias) :
    borrow_conflicts_with_place tcx bp kind ap access bias
      = place_components_conflict tcx bp kind ap access bias := by
  obtain ⟨b1, pr1⟩ := bp
  obtain ⟨b2, pr2⟩ := ap
  cases pr1 with
  | cons p ps => cases b1 <;> cases b2 <;> cases pr2 <;> rfl
  | nil =>
      cases pr2 with
      | cons q qs => cases b1 <;> cases b2 <;> rfl
      | nil =>
          cases b1 with
          | Static s => cases b2 <;> rfl
          | Local l1 =>
              cases b2 with
              | Static s => rfl
              | Local l2 =>
                  by_cases h : l1 = l2 <;>
                    simp [borrow_conflicts_with_place, place_components_conflict,
                      place_base_conflict, components_loop, h]

/-- If every per-step comparison before position `k` is
`EqualOrDisjoint` and the step at `k` is `Disjoint`, the lock-step loop
reports no conflict. -/
theorem components_loop_disjoint_at (kind : BorrowKind) (access : AccessDepth)
    (bias : PlaceConflictBias) :
    ∀ (k : Nat) (bs as' : List Projection) (pbK paK : Projection),
      bs.get? k = some pbK → as'.get? k = some paK →
      (∀ j, j < k → ∀ pb pa, bs.get? j = some pb → as'.get? j = some pa →
        place_projection_conflict pb pa bias = some Overlap.EqualOrDisjoint) →
      place_projection_conflict pbK paK bias = some Overlap.Disjoint →
      components_loop kind access bias bs as' = some false := by
  intro k
  induction k with
  | zero =>
      intro bs as' pbK paK hb ha _ hstep
      cases bs with
      | nil => simp at hb
      | cons b bs' =>
          cases as' with
          | nil => simp at ha
          | cons a as'' =>
              simp only [List.get?_cons_zero, Option.some_inj] at hb ha
              subst hb; subst ha
              simp [components_loop, hstep]
  | succ k ih =>
      intro bs as' pbK paK hb ha hsteps hstep
      cases bs with
      | nil => simp at hb
      | cons b bs' =>
          cases as' with
          | nil => simp at ha
          | cons a as'' =>
              have h0 : place_projection_conflict b a bias
                  = some Overlap.EqualOrDisjoint :=
                hsteps 0 (Nat.succ_pos k) b a rfl rfl
              simp only [List.get?_cons_succ] at hb ha
              simp only [components_loop, h0]
              exact ih bs' as'' pbK paK hb ha
                (fun j hj pb pa h1 h2 =>
                  hsteps (j + 1) (Nat.succ_lt_succ hj) pb pa h1 h2)
                hstep

/-- If every per-step comparison before position `k` is
`EqualOrDisjoint` and the step at `k` is `Arbitrary`, the lock-step loop
reports a conflict. -/
theorem components_loop_arbitrary_at (kind : BorrowKind) (access : AccessDepth)
    (bias : PlaceConflictBias) :
    ∀ (k : Nat) (bs as' : List Projection) (pbK paK : Projection),
      bs.get? k = some pbK → as'.get? k = some paK →
      (∀ j, j < k → ∀ pb pa, bs.get? j = some pb → as'.get? j = some pa →
        place_projection_conflict pb pa bias = some Overlap.EqualOrDisjoint) →
      place_projection_conflict pbK paK bias = some Overlap.Arbitrary →
      components_loop kind access bias bs as' = some true := by
  intro k
  induction k with
  | zero =>
      intro bs as' pbK paK hb ha _ hstep
      cases bs with
      | nil => simp at hb
      | cons b bs' =>
          cases as' with
          | nil => simp at ha
          | cons a as'' =>
              simp only [List.get?_cons_zero, Option.some_inj] at hb ha
              subst hb; subst ha
              simp [components_loop, hstep]
  | succ k ih =>
      intro bs as' pbK paK hb ha hsteps hstep
      cases bs with
      | nil => simp at hb
      | cons b bs' =>
          cases as' with
          | nil => simp at ha
          | cons a as'' =>
              have h0 : place_projection_conflict b a bias
                  = some Overlap.EqualOrDisjoint :=
                hsteps 0 (Nat.succ_pos k) b a rfl rfl
              simp only [List.get?_cons_succ] at hb ha
              simp only [components_loop, h0]
              exact ih bs' as'' pbK paK hb ha
                (fun j hj pb pa h1 h2 =>
                  hsteps (j + 1) (Nat.succ_lt_succ hj) pb pa h1 h2)
                hstep

/-- C2: when the lock-step walk reaches a pair of Field projections with
differing field indices (every earlier step being `EqualOrDisjoint`), the
step over a non-union containing type is `Disjoint` and the conflict query
returns false for every access depth, borrow kind, and bias; over a union
containing type the step is `Arbitrary` and the query returns true. -/
theorem c2_field_step (tcx : TyCtxt) (kind : BorrowKind) (access : AccessDepth)
    (bias : PlaceConflictBias) (bp ap : PlaceC) (k : Nat) (pbK paK : Projection)
    (f1 f2 : Nat) (t1 t2 : Ty)
    (hb : bp.projs.get? k = some pbK) (ha : ap.projs.get? k = some paK)
    (he1 : pbK.elem = .Field f1 t1) (he2 : paK.elem = .Field f2 t2)
    (hne : f1 ≠ f2)
    (hbase : place_base_conflict tcx bp.base ap.base = Overlap.EqualOrDisjoint)
    (hsteps : ∀ j, j < k → ∀ pb pa, bp.projs.get? j = some pb →
      ap.projs.get? j = some pa →
      place_projection_conflict pb pa bias = some Overlap.EqualOrDisjoint) :
    (∀ d, pbK.baseTy = Ty.Adt false d →
      borrow_conflicts_with_place tcx bp kind ap access bias = some false)
    ∧ (∀ d, pbK.baseTy = Ty.Adt true d →
      place_projection_conflict pbK paK bias = some Overlap.Arbitrary
      ∧ borrow_conflicts_with_place tcx bp kind ap access bias = some true) := by
  constructor
  · intro d hbt
    have hstep : place_projection_conflict pbK paK bias = some Overlap.Disjoint := by
      obtain ⟨bty, el⟩ := pbK
      obtain ⟨bty2, el2⟩ := paK
      simp only at he1 he2 hbt
      subst he1; subst he2; subst hbt
      simp [place_projection_conflict, hne]
    rw [borrow_conflicts_eq]
    simp only [place_components_conflict, hbase]
    exact components_loop_disjoint_at kind access bias k _ _ _ _ hb ha hsteps hstep
  · intro d hbt
    have hstep : place_projection_conflict pbK paK bias = some Overlap.Arbitrary := by
      obtain ⟨bty, el⟩ := pbK
      obtain ⟨bty2, el2⟩ := paK
      simp only at he1 he2 hbt
      subst he1; subst he2; subst hbt
      simp [place_projection_conflict, hne]
    refine ⟨hstep, ?_⟩
    rw [borrow_conflicts_eq]
    simp only [place_components_conflict, hbase]
    exact components_loop_arbitrary_at kind access bias k _ _ _ _ hb ha hsteps hstep

/-- Witness for C2: fields 0 and 1 of the same struct local are disjoint
at deep access. -/
theorem c2_witness :
    borrow_conflicts_with_place tcx0 structField0 (BorrowKind.Mut true)
      structField1 AccessDepth.Deep PlaceConflictBias.Overlap = some false :=
  (c2_field_step tcx0 (BorrowKind.Mut true) AccessDepth.Deep
      PlaceConflictBias.Overlap structField0 structField1 0
      ⟨Ty.Adt false false, .Field 0 (Ty.Other 0)⟩
      ⟨Ty.Adt false false, .Field 1 (Ty.Other 0)⟩ 0 1 (Ty.Other 0) (Ty.Other 0)
      rfl rfl rfl rfl (by decide) rfl
      (fun j hj => absurd hj (Nat.not_lt_zero j))).1 false rfl

end BorrowCk

namespace BorrowCk

/-- Root pairs listed as "cannot overlap" indeed produce a `Disjoint`
base comparison. -/
theorem place_base_conflict_of_cannot (tcx : TyCtxt) (b1 b2 : PlaceBase)
    (h : rootsCannotOverlap tcx b1 b2) :
    place_base_conflict tcx b1 b2 = Overlap.Disjoint := by
  rcases h with ⟨l1, l2, rfl, rfl, hne⟩
    | ⟨s1, s2, d1, d2, rfl, rfl, h1, h2, hne⟩
    | ⟨l, s, ⟨rfl, rfl⟩ | ⟨rfl, rfl⟩⟩
    | ⟨s1, s2, d, rfl, rfl, h1, h2, hmut⟩
  · simp [place_base_conflict, hne]
  · obtain ⟨k1, t1⟩ := s1
    obtain ⟨k2, t2⟩ := s2
    simp only at h1 h2
    subst h1; subst h2
    simp [place_base_conflict, hne]
  · rfl
  · rfl
  · obtain ⟨k1, t1⟩ := s1
    obtain ⟨k2, t2⟩ := s2
    simp only at h1 h2
    subst h1; subst h2
    simp [place_base_conflict, hmut]

/-- A base comparison that is not `Disjoint` can only arise from the same
local, the same non-mutable static item, or the same promoted constant. -/
theorem rootsMayConflict_of_base (tcx : TyCtxt) (b1 b2 : PlaceBase)
    (h : place_base_conflict tcx b1 b2 = Overlap.EqualOrDisjoint) :
    rootsMayConflict tcx b1 b2 := by
  cases b1 with
  | Local l1 =>
      cases b2 with
      | Local l2 =>
          by_cases he : l1 = l2
          · exact Or.inl ⟨l1, rfl, by rw [he]⟩
          · simp [place_base_conflict, he] at h
      | Static s => simp [place_base_conflict] at h
  | Static s1 =>
      cases b2 with
      | Local l2 => simp [place_base_conflict] at h
      | Static s2 =>
          obtain ⟨k1, t1⟩ := s1
          obtain ⟨k2, t2⟩ := s2
          cases k1 with
          | Static d1 =>
              cases k2 with
              | Static d2 =>
                  by_cases hd : d1 = d2
                  · subst hd
                    by_cases hm : tcx.is_mutable_static d1
                    · simp [place_base_conflict, hm] at h
                    · exact Or.inr (Or.inl ⟨⟨.Static d1, t1⟩, ⟨.Static d1, t2⟩, d1,
                        rfl, rfl, rfl, rfl, by simpa using hm⟩)
                  · simp [place_base_conflict, hd] at h
              | Promoted p2 => simp [place_base_conflict] at h
          | Promoted p1 =>
              cases k2 with
              | Static d2 => simp [place_base_conflict] at h
              | Promoted p2 =>
                  by_cases hp : p1 = p2
                  · subst hp
                    exact Or.inr (Or.inr ⟨⟨.Promoted p1, t1⟩, ⟨.Promoted p1, t2⟩,
                      p1, rfl, rfl, rfl, rfl⟩)
                  · simp [place_base_conflict, hp] at h

/-- C5 counterexample: two identical promoted-rooted places conflict
(`some true`) although their common root is neither a local nor a static
item, refuting "roots can conflict only when they are the same local or
the same non-mutable static item". -/
theorem c5_counterexample :
    borrow_conflicts_with_place tcx0 promotedPlace (BorrowKind.Mut true)
      promotedPlace AccessDepth.Deep PlaceConflictBias.Overlap = some true
    ∧ promotedPlace.base = PlaceBase.Static ⟨StaticKind.Promoted 0, Ty.Other 0⟩ :=
  ⟨rfl, rfl⟩

/-- C5 (amended): for root pairs that cannot overlap — different locals,
different static items, a local against a static, or the same mutable
static — the conflict query returns false for every access depth, borrow
kind, and bias; conversely a query returning true requires the roots to
be the same local, the same non-mutable static item, or the same promoted
constant. -/
theorem c5_roots (tcx : TyCtxt) (kind : BorrowKind) (access : AccessDepth)
    (bias : PlaceConflictBias) (P Q : PlaceC) :
    (rootsCannotOverlap tcx P.base Q.base →
      borrow_conflicts_with_place tcx P kind Q access bias = some false)
    ∧ (borrow_conflicts_with_place tcx P kind Q access bias = some true →
      rootsMayConflict tcx P.base Q.base) := by
  constructor
  · intro h
    rw [borrow_conflicts_eq]
    simp [place_components_conflict, place_base_conflict_of_cannot tcx _ _ h]
  · intro h
    rw [borrow_conflicts_eq] at h
    cases hb : place_base_conflict tcx P.base Q.base with
    | Arbitrary => simp [place_components_conflict, hb] at h
    | Disjoint => simp [place_components_conflict, hb] at h
    | EqualOrDisjoint => exact rootsMayConflict_of_base tcx _ _ hb

/-- Witness for C5: two different locals never conflict. -/
theorem c5_witness :
    borrow_conflicts_with_place tcx0 ⟨.Local 0, []⟩ (BorrowKind.Mut true)
      ⟨.Local 1, []⟩ AccessDepth.Deep PlaceConflictBias.Overlap = some false :=
  (c5_roots tcx0 (BorrowKind.Mut true) AccessDepth.Deep PlaceConflictBias.Overlap
      ⟨.Local 0, []⟩ ⟨.Local 1, []⟩).1
    (Or.inl ⟨0, 1, rfl, rfl, by decide⟩)

end BorrowCk

namespace FindUse

/-- C1 counterexample: in a straight-line body where point (0,0) defines a
local whose type mentions the region and its successor (0,1) uses it,
with the region live everywhere, the search returns no cause — it does
not continue past the definition to report the later use — although
starting at the use itself would report `Cause::LiveVar`. -/
theorem c1_counterexample :
    find cbody crc ⟨0, 0⟩ = none
    ∧ def_use cbody ⟨0, 0⟩ = some DefUseResult.Def
    ∧ def_use cbody ⟨0, 1⟩ = some (DefUseResult.UseLive 0)
    ∧ crc.region_contains ⟨0, 1⟩ = true
    ∧ find cbody crc ⟨0, 1⟩ = some (Cause.LiveVar 0 ⟨0, 1⟩) :=
  ⟨rfl, rfl, rfl, rfl, rfl⟩

/-- C1 (amended): when the breadth-first search dequeues a live,
unvisited point whose classification is a definition of a local whose
type mentions the region, it reports nothing there and does not enqueue
that point's successors (the kill abandons the path); it short-circuits
with `Cause::LiveVar` exactly at a use and with `Cause::DropVar` exactly
at a drop (the returned cause's point always classifies accordingly). -/
theorem c1_def_kill_use_drop (body : Body) (rc : RegionCtxt) :
    (∀ (fuel : Nat) (p : Location) (queue visited : List Location),
      rc.region_contains p = true → p ∉ visited →
      def_use body p = some DefUseResult.Def →
      findAux body rc (fuel + 1) (p :: queue) visited
        = findAux body rc fuel queue (p :: visited))
    ∧ (∀ (fuel : Nat) (p : Location) (queue visited : List Location) (l : Nat),
      rc.region_contains p = true → p ∉ visited →
      def_use body p = some (DefUseResult.UseLive l) →
      findAux body rc (fuel + 1) (p :: queue) visited = some (Cause.LiveVar l p))
    ∧ (∀ (fuel : Nat) (p : Location) (queue visited : List Location) (l : Nat),
      rc.region_contains p = true → p ∉ visited →
      def_use body p = some (DefUseResult.UseDrop l) →
      findAux body rc (fuel + 1) (p :: queue) visited = some (Cause.DropVar l p))
    ∧ (∀ (fuel : Nat) (queue visited : List Location) (l : Nat) (p : Location),
      findAux body rc fuel queue visited = some (Cause.LiveVar l p) →
      def_use body p = some (DefUseResult.UseLive l) ∧ rc.region_contains p = true)
    ∧ (∀ (fuel : Nat) (queue visited : List Location) (l : Nat) (p : Location),
      findAux body rc fuel queue visited = some (Cause.DropVar l p) →
      def_use body p = some (DefUseResult.UseDrop l)
        ∧ rc.region_contains p = true) := by
  refine ⟨?_, ?_, ?_, ?_, ?_⟩
  · intro fuel p queue visited hlive hvis hdef
    simp [findAux, hlive, hvis, hdef]
  · intro fuel p queue visited l hlive hvis huse
    simp [findAux, hlive, hvis, huse]
  · intro fuel p queue visited l hlive hvis hdrop
    simp [findAux, hlive, hvis, hdrop]
  · intro fuel
    induction fuel with
    | zero => intro queue visited l p h; simp [findAux] at h
    | succ fuel ih =>
        intro queue visited l p h
        cases queue with
        | nil => simp [findAux] at h
        | cons q rest =>
            by_cases hlive : rc.region_contains q
            · by_cases hvis : q ∈ visited
              · rw [findAux] at h
                simp only [hlive, not_true_eq_false, if_false, hvis, if_true] at h
                exact ih rest visited l p h
              · rw [findAux] at h
                simp only [hlive, not_true_eq_false, if_false, hvis, if_true,
                  if_false] at h
                cases hdu : def_use body q with
                | none =>
                    rw [hdu] at h
                    simp only at h
                    by_cases hst : q.statement_index
                        < (body.blocks.getD q.block ⟨0, [], none⟩).statements
                    · simp only [hst, if_true] at h
                      exact ih _ _ l p h
                    · simp only [hst, if_false] at h
                      exact ih _ _ l p h
                | some r =>
                    cases r with
                    | Def =>
                        rw [hdu] at h
                        simp only at h
                        exact ih rest (q :: visited) l p h
                    | UseLive l' =>
                        rw [hdu] at h
                        simp only [Option.some_inj] at h
                        obtain ⟨rfl, rfl⟩ : l' = l ∧ q = p := by
                          cases h; exact ⟨rfl, rfl⟩
                        exact ⟨hdu, hlive⟩
                    | UseDrop l' =>
                        rw [hdu] at h
                        simp only [Option.some_inj] at h
                        cases h
            · rw [findAux] at h
              simp only [hlive, not_false_eq_true, if_true] at h
              exact ih rest visited l p h
  · intro fuel
    induction fuel with
    | zero => intro queue visited l p h; simp [findAux] at h
    | succ fuel ih =>
        intro queue visited l p h
        cases queue with
        | nil => simp [findAux] at h
        | cons q rest =>
            by_cases hlive : rc.region_contains q
            · by_cases hvis : q ∈ visited
              · rw [findAux] at h
                simp only [hlive, not_true_eq_false, if_false, hvis, if_true] at h
                exact ih rest visited l p h
              · rw [findAux] at h
                simp only [hlive, not_true_eq_false, if_false, hvis, if_true,
                  if_false] at h
                cases hdu : def_use body q with
                | none =>
                    rw [hdu] at h
                    simp only at h
                    by_cases hst : q.statement_index
                        < (body.blocks.getD q.block ⟨0, [], none⟩).statements
                    · simp only [hst, if_true] at h
                      exact ih _ _ l p h
                    · simp only [hst, if_false] at h
                      exact ih _ _ l p h
                | some r =>
                    cases r with
                    | Def =>
                        rw [hdu] at h
                        simp only at h
                        exact ih rest (q :: visited) l p h
                    | UseLive l' =>
                        rw [hdu] at h
                        simp only [Option.some_inj] at h
                        cases h
                    | UseDrop l' =>
                        rw [hdu] at h
                        simp only [Option.some_inj] at h
                        obtain ⟨rfl, rfl⟩ : l' = l ∧ q = p := by
                          cases h; exact ⟨rfl, rfl⟩
                        exact ⟨hdu, hlive⟩
            · rw [findAux] at h
              simp only [hlive, not_false_eq_true, if_true] at h
              exact ih rest visited l p h

/-- Witness for C1 (amended): at the concrete body, dequeuing the use
point reports `LiveVar` there. -/
theorem c1_witness :
    findAux cbody crc 1 [⟨0, 1⟩] [] = some (Cause.LiveVar 0 ⟨0, 1⟩) :=
  (c1_def_kill_use_drop cbody crc).2.1 0 ⟨0, 1⟩ [] [] 0 rfl
    (by simp) rfl

end FindUse

namespace MovePaths

/-- Lookup after inserting a binding for the searched key finds it. -/
theorem lookupProj_cons_self (loc : Nat → Nat)
    (ps : List ((Nat × AbstractElem) × Nat)) (k : Nat × AbstractElem) (v : Nat) :
    lookupProj ⟨loc, (k, v) :: ps⟩ k = some v := by
  simp [lookupProj, List.find?]

/-- Lookup is unchanged by inserting a binding for a different key. -/
theorem lookupProj_cons_ne (loc : Nat → Nat)
    (ps : List ((Nat × AbstractElem) × Nat)) (k' : Nat × AbstractElem) (v' : Nat)
    (k : Nat × AbstractElem) (h : k ≠ k') :
    lookupProj ⟨loc, (k', v') :: ps⟩ k = lookupProj ⟨loc, ps⟩ k := by
  have hne : (decide ((k', v').1 = k)) = false := by
    simp [Ne.symm h]
  simp [lookupProj, List.find?, hne]

/-- The builder walk preserves all existing lookup entries, leaves the
per-local table unchanged, and leaves the registered place findable:
walking the same projections from the same start reaches exactly the
returned index. -/
theorem move_path_for_projs_spec :
    ∀ (elems : List BorrowCk.ProjectionElem) (b : MoveDataBuilder) (cur : Nat)
      (base : BorrowCk.PlaceBase) (sofar : List BorrowCk.ProjectionElem),
      (∀ k v, lookupProj b.rev_lookup k = some v →
        lookupProj (move_path_for_projs b cur base sofar elems).1.rev_lookup k
          = some v)
      ∧ (move_path_for_projs b cur base sofar elems).1.rev_lookup.locals
          = b.rev_lookup.locals
      ∧ findFrom (move_path_for_projs b cur base sofar elems).1.rev_lookup cur elems
          = .Exact (move_path_for_projs b cur base sofar elems).2 := by
  intro elems
  induction elems with
  | nil =>
      intro b cur base sofar
      exact ⟨fun k v h => h, rfl, rfl⟩
  | cons e rest ih =>
      intro b cur base sofar
      cases hl : lookupProj b.rev_lookup (cur, lift e) with
      | some child =>
          obtain ⟨pres, hloc, hfind⟩ := ih b child base (sofar ++ [e])
          refine ⟨?_, ?_, ?_⟩
          · intro k v h
            simpa [move_path_for_projs, hl] using pres k v h
          · simpa [move_path_for_projs, hl] using hloc
          · have hstep :
                lookupProj (move_path_for_projs b child base (sofar ++ [e]) rest).1.rev_lookup
                  (cur, lift e) = some child :=
              pres _ _ hl
            simp [move_path_for_projs, hl, findFrom, hstep, hfind]
      | none =>
          set r := new_move_path b cur e ⟨base, sofar ++ [e]⟩ with hr
          have hrev : r.1.rev_lookup
              = ⟨b.rev_lookup.locals,
                 ((cur, lift e), b.move_paths.length) :: b.rev_lookup.projections⟩ := rfl
          have hidx : r.2 = b.move_paths.length := rfl
          have pres01 : ∀ k v, lookupProj b.rev_lookup k = some v →
              lookupProj r.1.rev_lookup k = some v := by
            intro k v h
            have hne : k ≠ (cur, lift e) := by
              intro he; rw [he, hl] at h; exact Option.noConfusion h
            obtain ⟨loc0, ps0⟩ := b.rev_lookup
            rw [hrev]
            rw [lookupProj_cons_ne _ _ _ _ _ hne]
            exact h
          obtain ⟨pres, hloc, hfind⟩ := ih r.1 r.2 base (sofar ++ [e])
          refine ⟨?_, ?_, ?_⟩
          · intro k v h
            simpa [move_path_for_projs, hl] using pres k v (pres01 k v h)
          · have : r.1.rev_lookup.locals = b.rev_lookup.locals := by rw [hrev]
            simpa [move_path_for_projs, hl, this] using hloc
          · have hself : lookupProj r.1.rev_lookup (cur, lift e) = some r.2 := by
              rw [hrev, hidx]
              obtain ⟨loc0, ps0⟩ := b.rev_lookup
              exact lookupProj_cons_self _ _ _ _
            have hstep :
                lookupProj (move_path_for_projs r.1 r.2 base (sofar ++ [e]) rest).1.rev_lookup
                  (cur, lift e) = some r.2 :=
              pres _ _ hself
            simp [move_path_for_projs, hl, findFrom, hstep, hfind]

/-- The projection walk distributes over list append. -/
theorem findFrom_append (m : MovePathLookup) :
    ∀ (l1 : List BorrowCk.ProjectionElem) (cur : Nat)
      (l2 : List BorrowCk.ProjectionElem),
      findFrom m cur (l1 ++ l2)
        = match findFrom m cur l1 with
          | .Exact mid => findFrom m mid l2
          | .Parent o => .Parent o := by
  intro l1
  induction l1 with
  | nil => intro cur l2; rfl
  | cons p rest ih =>
      intro cur l2
      cases hl : lookupProj m (cur, lift p) with
      | some sub => simp [findFrom, hl, ih]
      | none => simp [findFrom, hl]

/-- C6: registering a local-rooted place through the tracker makes
`find` of that exact place return `Exact` with the returned move-path
index, and `find` of a strict extension whose first extra abstracted
projection is unregistered returns `Parent(Some idx)` — the deepest
registered ancestor along the projection walk. -/
theorem c6_find_after_register (b : MoveDataBuilder) (l : Nat)
    (projs : List BorrowCk.ProjectionElem) (b' : MoveDataBuilder) (idx : Nat)
    (hreg : move_path_for b ⟨.Local l, projs⟩ = some (b', idx)) :
    find b'.rev_lookup ⟨.Local l, projs⟩ = .Exact idx
    ∧ ∀ (e : BorrowCk.ProjectionElem) (more : List BorrowCk.ProjectionElem),
        lookupProj b'.rev_lookup (idx, lift e) = none →
        find b'.rev_lookup ⟨.Local l, projs ++ e :: more⟩
          = .Parent (some idx) := by
  have h : move_path_for_projs b (b.rev_lookup.locals l) (.Local l) [] projs
      = (b', idx) := by
    simpa [move_path_for] using hreg
  obtain ⟨pres, hloc, hfind⟩ :=
    move_path_for_projs_spec projs b (b.rev_lookup.locals l) (.Local l) []
  rw [h] at hloc hfind
  have hlocals : b'.rev_lookup.locals l = b.rev_lookup.locals l := by rw [hloc]
  have hexact : findFrom b'.rev_lookup (b.rev_lookup.locals l) projs
      = .Exact idx := hfind
  constructor
  · show findFrom b'.rev_lookup (b'.rev_lookup.locals l) projs = .Exact idx
    rw [hlocals]; exact hexact
  · intro e more hnone
    show findFrom b'.rev_lookup (b'.rev_lookup.locals l) (projs ++ e :: more)
      = .Parent (some idx)
    rw [hlocals, findFrom_append, hexact]
    simp [findFrom, hnone]

/-- Witness for C6: registering `(local 0).2.deref` in the one-node
builder makes `find` of it exact, and a one-step-deeper unregistered
place resolves to its parent. -/
theorem c6_witness :
    find reg1.1.rev_lookup
        ⟨.Local 0, [.Field 2 (BorrowCk.Ty.Other 0), .Deref]⟩
      = .Exact reg1.2
    ∧ find reg1.1.rev_lookup
        ⟨.Local 0, [.Field 2 (BorrowCk.Ty.Other 0), .Deref, .Deref]⟩
      = .Parent (some reg1.2) :=
  And.intro
    ((c6_find_after_register b0 0 [.Field 2 (BorrowCk.Ty.Other 0), .Deref]
        reg1.1 reg1.2 rfl).1)
    ((c6_find_after_register b0 0 [.Field 2 (BorrowCk.Ty.Other 0), .Deref]
        reg1.1 reg1.2 rfl).2 .Deref [] rfl)

end MovePaths

namespace BorrowCk

/-- The per-step projection comparison is symmetric whenever the two
steps share a base type (the walk's invariant: compared elements "have
the same type"). -/
theorem place_projection_conflict_symm (pb pa : Projection)
    (bias : PlaceConflictBias) (h : pb.baseTy = pa.baseTy) :
    place_projection_conflict pb pa bias = place_projection_conflict pa pb bias := by
  obtain ⟨t1, e1⟩ := pb
  obtain ⟨t2, e2⟩ := pa
  simp only at h
  subst h
  cases e1 with
  | Deref =>
      cases e2 with
      | ConstantIndex o ml fe => cases fe <;> rfl
      | _ => rfl
  | Field f1 ty1 =>
      cases e2 with
      | Field f2 ty2 =>
          by_cases hf : f1 = f2
          · subst hf; rfl
          · simp [place_projection_conflict, hf, Ne.symm hf]
      | ConstantIndex o ml fe => cases fe <;> rfl
      | _ => rfl
  | Index v1 =>
      cases e2 with
      | ConstantIndex o ml fe => cases fe <;> rfl
      | _ => rfl
  | ConstantIndex o1 ml1 fe1 =>
      cases e2 with
      | ConstantIndex o2 ml2 fe2 =>
          cases fe1 <;> cases fe2
          · by_cases ho : o1 = o2
            · subst ho; rfl
            · simp [place_projection_conflict, ho, Ne.symm ho]
          · simp [place_projection_conflict, Nat.max_comm]
          · simp [place_projection_conflict, Nat.max_comm]
          · by_cases ho : o1 = o2
            · subst ho; rfl
            · simp [place_projection_conflict, ho, Ne.symm ho]
      | _ => cases fe1 <;> rfl
  | Subslice a1 b1 =>
      cases e2 with
      | ConstantIndex o ml fe => cases fe <;> rfl
      | _ => rfl
  | Downcast v1 =>
      cases e2 with
      | Downcast v2 =>
          by_cases hv : v1 = v2
          · subst hv; rfl
          · simp [place_projection_conflict, hv, Ne.symm hv]
      | ConstantIndex o ml fe => cases fe <;> rfl
      | _ => rfl

/-- The base comparison is symmetric, given that two bases naming the
same promoted constant carry the same type. -/
theorem place_base_conflict_symm (tcx : TyCtxt) (b1 b2 : PlaceBase)
    (hwf : basesWf b1 b2 = true) :
    place_base_conflict tcx b1 b2 = place_base_conflict tcx b2 b1 := by
  cases b1 with
  | Local l1 =>
      cases b2 with
      | Local l2 =>
          by_cases h : l1 = l2
          · subst h; rfl
          · simp [place_base_conflict, h, Ne.symm h]
      | Static s => rfl
  | Static s1 =>
      cases b2 with
      | Local l2 => rfl
      | Static s2 =>
          obtain ⟨k1, t1⟩ := s1
          obtain ⟨k2, t2⟩ := s2
          cases k1 with
          | Static d1 =>
              cases k2 with
              | Static d2 =>
                  by_cases hd : d1 = d2
                  · subst hd; rfl
                  · simp [place_base_conflict, hd, Ne.symm hd]
              | Promoted p2 => rfl
          | Promoted p1 =>
              cases k2 with
              | Static d2 => rfl
              | Promoted p2 =>
                  by_cases hp : p1 = p2
                  · subst hp
                    have ht : t1 = t2 := by
                      simp [basesWf] at hwf
                      exact hwf
                    subst ht; rfl
                  · simp [place_base_conflict, hp, Ne.symm hp]

/-- At deep access, a borrow path that outlives the access path always
conflicts, provided none of its remaining steps dereferences a shared
reference (which the walk treats as a `bug!`). -/
theorem components_loop_longer_deep (kind : BorrowKind) (bias : PlaceConflictBias) :
    ∀ bs : List Projection, (∀ p ∈ bs, isSharedRefDeref p = false) →
      components_loop kind AccessDepth.Deep bias bs [] = some true := by
  intro bs
  induction bs with
  | nil => intro _; simp [components_loop]
  | cons b bs ih =>
      intro h
      have hb := h b (List.mem_cons_self _ _)
      have hstep : borrow_longer_step b AccessDepth.Deep = LongerStep.recur := by
        obtain ⟨bty, el⟩ := b
        cases el with
        | Deref =>
            cases bty with
            | Ref m t =>
                cases m with
                | MutImmutable => simp [isSharedRefDeref] at hb
                | MutMutable => rfl
            | Adt u d => rfl
            | Array t len => rfl
            | Other n => rfl
        | Field f ty => cases bty <;> rfl
        | Index v => cases bty <;> rfl
        | ConstantIndex o ml fe => cases bty <;> rfl
        | Subslice a c => cases bty <;> rfl
        | Downcast v => cases bty <;> rfl
      simp only [components_loop, hstep]
      exact ih (fun p hp => h p (List.mem_cons_of_mem _ hp))

/-- The lock-step loop is symmetric at deep access for non-shallow
borrows, under the walk's well-formedness assumptions. -/
theorem components_loop_symm_deep (kind : BorrowKind) (bias : PlaceConflictBias)
    (hkind : kind ≠ BorrowKind.Shallow) :
    ∀ (bs as' : List Projection),
      (∀ pr ∈ bs.zip as', pr.1.baseTy = pr.2.baseTy) →
      (∀ p ∈ bs, isSharedRefDeref p = false) →
      (∀ p ∈ as', isSharedRefDeref p = false) →
      components_loop kind AccessDepth.Deep bias bs as'
        = components_loop kind AccessDepth.Deep bias as' bs := by
  intro bs
  induction bs with
  | nil =>
      intro as' _ _ hA
      cases as' with
      | nil => rfl
      | cons a rest =>
          have h1 : components_loop kind AccessDepth.Deep bias [] (a :: rest)
              = some true := by
            simp [components_loop, hkind]
          have h2 : components_loop kind AccessDepth.Deep bias (a :: rest) []
              = some true :=
            components_loop_longer_deep kind bias (a :: rest) hA
          rw [h1, h2]
  | cons b bs ih =>
      intro as' hty hB hA
      cases as' with
      | nil =>
          have h1 := components_loop_longer_deep kind bias (b :: bs) hB
          have h2 : components_loop kind AccessDepth.Deep bias [] (b :: bs)
              = some true := by
            simp [components_loop, hkind]
          rw [h1, h2]
      | cons a rest =>
          have hba : b.baseTy = a.baseTy := by
            apply hty (b, a)
            rw [List.zip_cons_cons]
            exact List.mem_cons_self _ _
          have hsym := place_projection_conflict_symm b a bias hba
          cases hpc : place_projection_conflict b a bias with
          | none =>
              have hpc' : place_projection_conflict a b bias = none :=
                hsym.symm.trans hpc
              simp [components_loop, hpc, hpc']
          | some o =>
              have hpc' : place_projection_conflict a b bias = some o :=
                hsym.symm.trans hpc
              cases o with
              | Arbitrary => simp [components_loop, hpc, hpc']
              | Disjoint => simp [components_loop, hpc, hpc']
              | EqualOrDisjoint =>
                  simp only [components_loop, hpc, hpc']
                  exact ih rest
                    (fun pr hpr => hty pr
                      (by rw [List.zip_cons_cons]; exact List.mem_cons_of_mem _ hpr))
                    (fun p hp => hB p (List.mem_cons_of_mem _ hp))
                    (fun p hp => hA p (List.mem_cons_of_mem _ hp))

/-- C4 counterexample: with identical borrow kind (`Mut`), access depth
(`Shallow(None)`) and bias on both sides, a borrow of `*_1` against an
access of `_1` does not conflict, while a borrow of `_1` against an
access of `*_1` does — conflict detection is not symmetric at shallow
depth. -/
theorem c4_counterexample :
    borrow_conflicts_with_place tcx0 ⟨.Local 0, [⟨Ty.Other 0, .Deref⟩]⟩
        (BorrowKind.Mut true) ⟨.Local 0, []⟩ (AccessDepth.Shallow none)
        PlaceConflictBias.Overlap
      ≠ borrow_conflicts_with_place tcx0 ⟨.Local 0, []⟩ (BorrowKind.Mut true)
        ⟨.Local 0, [⟨Ty.Other 0, .Deref⟩]⟩ (AccessDepth.Shallow none)
        PlaceConflictBias.Overlap := by decide

/-- C4 (amended): conflict detection is symmetric for equal deep access
depth, equal non-shallow borrow kind, and equal bias, for well-formed
queries: lock-stepped steps share base types, neither place dereferences
a shared reference, and same-promoted bases agree on their type. -/
theorem c4_symmetry_deep (tcx : TyCtxt) (kind : BorrowKind)
    (bias : PlaceConflictBias) (P Q : PlaceC)
    (hkind : kind ≠ BorrowKind.Shallow)
    (hwf : basesWf P.base Q.base = true)
    (hty : ∀ pr ∈ P.projs.zip Q.projs, pr.1.baseTy = pr.2.baseTy)
    (hP : ∀ p ∈ P.projs, isSharedRefDeref p = false)
    (hQ : ∀ p ∈ Q.projs, isSharedRefDeref p = false) :
    borrow_conflicts_with_place tcx P kind Q AccessDepth.Deep bias
      = borrow_conflicts_with_place tcx Q kind P AccessDepth.Deep bias := by
  rw [borrow_conflicts_eq, borrow_conflicts_eq]
  have hbase := place_base_conflict_symm tcx P.base Q.base hwf
  cases hb : place_base_conflict tcx P.base Q.base with
  | Arbitrary =>
      have hb' : place_base_conflict tcx Q.base P.base = Overlap.Arbitrary :=
        hbase.symm.trans hb
      simp [place_components_conflict, hb, hb']
  | Disjoint =>
      have hb' : place_base_conflict tcx Q.base P.base = Overlap.Disjoint :=
        hbase.symm.trans hb
      simp [place_components_conflict, hb, hb']
  | EqualOrDisjoint =>
      have hb' : place_base_conflict tcx Q.base P.base = Overlap.EqualOrDisjoint :=
        hbase.symm.trans hb
      simp only [place_components_conflict, hb, hb']
      exact components_loop_symm_deep kind bias hkind P.projs Q.projs hty hP hQ

/-- Witness for C4 (amended): two struct-field places of the same local
compare symmetrically at deep access. -/
theorem c4_witness :
    borrow_conflicts_with_place tcx0 structField0 (BorrowKind.Mut true)
        structField1 AccessDepth.Deep PlaceConflictBias.Overlap
      = borrow_conflicts_with_place tcx0 structField1 (BorrowKind.Mut true)
        structField0 AccessDepth.Deep PlaceConflictBias.Overlap :=
  c4_symmetry_deep tcx0 (BorrowKind.Mut true) PlaceConflictBias.Overlap
    structField0 structField1 (by decide) (by decide) (by decide)
    (by decide) (by decide)

end BorrowCk
